import Mathlib

/-!
Verification of the similarity engine of the adminweb question manager
(`src/script.js`).  The engine consists of:

* `levenshteinDistance` — classic dynamic-programming edit distance,
  computed row by row over an `(m+1) × (n+1)` matrix;
* `calculateSimilarity` — falsy-input guard, text normalization
  (lower-case, trim, collapse whitespace runs), identical-forms check,
  then a distance-based percentage rounded to two decimal places;
* `findSimilarQuestionsForQuestion` — filter by id and threshold, pair
  each surviving candidate with its score, stable sort by descending score.

Strings are modelled as `List Char`; question records as `Question`;
JavaScript numbers as `ℚ` (all quantities involved are exact decimals,
and no claim probes binary floating-point artifacts).
-/

/-- Characters matched by JavaScript's `\s` regex class and removed by
`String.prototype.trim` (whitespace and line terminators). -/
def isJsWhitespace (c : Char) : Bool :=
  c.toNat == 9 || c.toNat == 10 || c.toNat == 11 || c.toNat == 12 || c.toNat == 13 ||
  c.toNat == 32 || c.toNat == 0xa0 || c.toNat == 0x1680 ||
  (0x2000 ≤ c.toNat && c.toNat ≤ 0x200a) ||
  c.toNat == 0x2028 || c.toNat == 0x2029 || c.toNat == 0x202f ||
  c.toNat == 0x205f || c.toNat == 0x3000 || c.toNat == 0xfeff

/-- Model of `String.prototype.trim`: remove leading and trailing
whitespace characters. -/
def trimWS (l : List Char) : List Char :=
  ((l.dropWhile isJsWhitespace).reverse.dropWhile isJsWhitespace).reverse

/-- Worker for `collapseWS`; the flag records whether the previous kept
position was inside a whitespace run (so further whitespace of the same
run is dropped). -/
def collapseWSAux : Bool → List Char → List Char
  | _, [] => []
  | prevWS, c :: rest =>
    if isJsWhitespace c then
      if prevWS then collapseWSAux true rest
      else ' ' :: collapseWSAux true rest
    else c :: collapseWSAux false rest

/-- Model of `.replace(/\s+/g, ' ')`: every maximal run of whitespace
characters becomes a single space. -/
def collapseWS (l : List Char) : List Char :=
  collapseWSAux false l

/-- Model of the normalization in `calculateSimilarity`
(`src/script.js` lines 79–80): `text.toLowerCase().trim().replace(/\s+/g, ' ')`. -/
def normalizeText (l : List Char) : List Char :=
  collapseWS (trimWS (l.map Char.toLower))

/-- Inner loop of `levenshteinDistance` (`src/script.js` lines 62–69):
given the character `c = str1[i-1]`, the remaining suffix of `str2`, the
corresponding tail of the previous matrix row, and the cell to the left,
produce the cells `matrix[i][j], matrix[i][j+1], …` of the current row. -/
def levRow (c : Char) : List Char → List Nat → Nat → List Nat
  | y :: ys, d0 :: d1 :: rest, left =>
    let cost := if c = y then 0 else 1
    let cur := min (min (d1 + 1) (left + 1)) (d0 + cost)
    cur :: levRow c ys (d1 :: rest) cur
  | _, _, _ => []

/-- Outer loop of `levenshteinDistance` (`src/script.js` lines 61–70):
starting from row `0 … len2` of the matrix, compute each following row
from the previous one; `i` is the index of the row in `prev`. -/
def levLoop (s2 : List Char) : List Char → Nat → List Nat → List Nat
  | [], _, prev => prev
  | c :: cs, i, prev => levLoop s2 cs (i + 1) ((i + 1) :: levRow c s2 prev (i + 1))

/-- Model of `levenshteinDistance` (`src/script.js` lines 49–73): the
value `matrix[len1][len2]` of the dynamic-programming matrix, obtained as
the last entry of the last row. -/
def levenshteinDistance (s1 s2 : List Char) : Nat :=
  (levLoop s2 s1 0 (List.range (s2.length + 1))).getLastD 0

/-- The cells of the dynamic-programming matrix of `levenshteinDistance`,
as a function of the two indices: `levTable s1 s2 i j = matrix[i][j]`,
defined by the classic recurrence with base cases `d[i][0] = i`,
`d[0][j] = j` and uniform substitution cost `1`. -/
def levTable (s1 s2 : List Char) : Nat → Nat → Nat
  | 0, j => j
  | i + 1, 0 => i + 1
  | i + 1, j + 1 =>
    let cost := if s1.getD i ' ' = s2.getD j ' ' then 0 else 1
    min (min (levTable s1 s2 i (j + 1) + 1) (levTable s1 s2 (i + 1) j + 1))
      (levTable s1 s2 i j + cost)
termination_by i j => (i, j)

/-- Model of JavaScript's `Math.round` on (non-pathological) numbers:
round half toward positive infinity. -/
def jsRound (q : ℚ) : ℤ := ⌊q + 1 / 2⌋

/-- Model of `calculateSimilarity` (`src/script.js` lines 75–91).  The
guard `!text1 || !text2` is the empty-string (falsy) test; the final
expression is `Math.round(similarity * 100) / 100`. -/
def calculateSimilarity (text1 text2 : List Char) : ℚ :=
  if text1 = [] ∨ text2 = [] then 0
  else
    let normalizedText1 := normalizeText text1
    let normalizedText2 := normalizeText text2
    if normalizedText1 = normalizedText2 then 100
    else
      let maxLength := max normalizedText1.length normalizedText2.length
      if maxLength = 0 then 100
      else
        let distance := levenshteinDistance normalizedText1 normalizedText2
        let similarity := (((maxLength : ℚ) - (distance : ℚ)) / (maxLength : ℚ)) * 100
        (jsRound (similarity * 100) : ℚ) / 100

/-- A question record, reduced to the fields the similarity engine reads:
the identifying `id` and the compared `question_text`. -/
structure Question where
  id : String
  question_text : List Char
deriving DecidableEq

/-- Ordering used by the final `.sort((a, b) => b.similarity - a.similarity)`:
an element precedes another when its similarity is at least as large. -/
def simRel (p q : Question × ℚ) : Prop := q.2 ≤ p.2

instance : DecidableRel simRel :=
  fun p q => inferInstanceAs (Decidable (q.2 ≤ p.2))

instance : IsTotal (Question × ℚ) simRel :=
  ⟨fun p q => (le_total q.2 p.2).imp id id⟩

instance : IsTrans (Question × ℚ) simRel :=
  ⟨fun _ _ _ h1 h2 => le_trans h2 h1⟩

/-- Model of `findSimilarQuestionsForQuestion` (`src/script.js` lines
93–109): guard on a missing target or empty target text, filter the
candidates by id difference and threshold, pair each with its score, and
sort by descending score (JavaScript's sort is stable; `insertionSort`
with `simRel` is the corresponding stable sort). -/
def findSimilarQuestionsForQuestion (targetQuestion : Option Question)
    (questions : List Question) (threshold : ℚ) : List (Question × ℚ) :=
  match targetQuestion with
  | none => []
  | some target =>
    if target.question_text = [] then []
    else
      List.insertionSort simRel
        (((questions.filter fun question =>
            decide (question.id ≠ target.id) &&
            decide (threshold ≤ calculateSimilarity target.question_text question.question_text))).map
          fun question =>
            (question, calculateSimilarity target.question_text question.question_text))

/-- Base case of the matrix: the row `0` is `d[0][j] = j`. -/
theorem levTable_zero_left (s1 s2 : List Char) (j : Nat) : levTable s1 s2 0 j = j := by
  simp [levTable]

/-- Base case of the matrix: the column `0` is `d[i][0] = i`. -/
theorem levTable_zero_right (s1 s2 : List Char) (i : Nat) : levTable s1 s2 i 0 = i := by
  cases i <;> simp [levTable]

/-- Interior recurrence of the matrix, exactly as in `src/script.js` lines 63–68. -/
theorem levTable_succ_succ (s1 s2 : List Char) (i j : Nat) :
    levTable s1 s2 (i + 1) (j + 1) =
      min (min (levTable s1 s2 i (j + 1) + 1) (levTable s1 s2 (i + 1) j + 1))
        (levTable s1 s2 i j + if s1.getD i ' ' = s2.getD j ' ' then 0 else 1) := by
  rw [levTable]

/-- The inner loop computes the cells `matrix[i+1][j+1] … matrix[i+1][n]` of the
table when fed the corresponding cells of row `i` and the cell to its left. -/
theorem levRow_spec (s1 s2 : List Char) (i : Nat) :
    ∀ (ys : List Char) (j : Nat), s2.drop j = ys →
      levRow (s1.getD i ' ') ys
        ((List.range' j (s2.length + 1 - j)).map (levTable s1 s2 i))
        (levTable s1 s2 (i + 1) j)
      = (List.range' (j + 1) (s2.length - j)).map (levTable s1 s2 (i + 1)) := by
  intro ys
  induction ys with
  | nil =>
    intro j hj
    have hle : s2.length ≤ j := List.drop_eq_nil_iff.mp hj
    rw [Nat.sub_eq_zero_of_le hle]
    simp [levRow]
  | cons y ys ih =>
    intro j hj
    have hlt : j < s2.length := by
      by_contra hc
      rw [List.drop_eq_nil_iff.mpr (by omega)] at hj
      exact List.noConfusion hj
    have hy : s2.getD j ' ' = y := by
      have h1 : (s2.drop j).head? = s2[j]? := List.head?_drop s2 j
      rw [hj] at h1
      simp only [List.head?_cons] at h1
      simp [List.getD_eq_getElem?_getD, ← h1]
    have hys : s2.drop (j + 1) = ys := by
      have h2 : List.drop 1 (List.drop j s2) = List.drop (j + 1) s2 := List.drop_drop 1 j s2
      rw [hj] at h2
      simpa using h2.symm
    obtain ⟨k, hk1, hk2, hk3, hk4⟩ :
        ∃ k, s2.length - j = k + 1 ∧ s2.length + 1 - j = k + 2 ∧
          s2.length - (j + 1) = k ∧ s2.length + 1 - (j + 1) = k + 1 :=
      ⟨s2.length - j - 1, by omega, by omega, by omega, by omega⟩
    have key : levTable s1 s2 (i + 1) (j + 1) =
        min (min (levTable s1 s2 i (j + 1) + 1) (levTable s1 s2 (i + 1) j + 1))
          (levTable s1 s2 i j + if s1.getD i ' ' = y then 0 else 1) := by
      rw [levTable_succ_succ, hy]
    have ihx := ih (j + 1) hys
    rw [hk4, List.range'_succ, List.map_cons, hk3] at ihx
    rw [hk2, List.range'_succ, List.range'_succ, List.map_cons, List.map_cons, hk1,
      List.range'_succ, List.map_cons]
    simp only [levRow]
    rw [← key, ihx]

/-- The outer loop turns row `i` of the table into the final row `len1`. -/
theorem levLoop_spec (s1 s2 : List Char) :
    ∀ (cs : List Char) (i : Nat), i ≤ s1.length → s1.drop i = cs →
      levLoop s2 cs i ((List.range' 0 (s2.length + 1)).map (levTable s1 s2 i))
      = (List.range' 0 (s2.length + 1)).map (levTable s1 s2 s1.length) := by
  intro cs
  induction cs with
  | nil =>
    intro i hle hi
    have : s1.length ≤ i := List.drop_eq_nil_iff.mp hi
    have hi' : i = s1.length := le_antisymm hle this
    subst hi'
    rw [levLoop]
  | cons c cs ih =>
    intro i hle hi
    have hlt : i < s1.length := by
      by_contra hc
      rw [List.drop_eq_nil_iff.mpr (by omega)] at hi
      exact List.noConfusion hi
    have hc : s1.getD i ' ' = c := by
      have h1 : (s1.drop i).head? = s1[i]? := List.head?_drop s1 i
      rw [hi] at h1
      simp only [List.head?_cons] at h1
      simp [List.getD_eq_getElem?_getD, ← h1]
    have hcs : s1.drop (i + 1) = cs := by
      have h2 : List.drop 1 (List.drop i s1) = List.drop (i + 1) s1 := List.drop_drop 1 i s1
      rw [hi] at h2
      simpa using h2.symm
    rw [levLoop]
    have hrow := levRow_spec s1 s2 i s2 0 (by simp)
    simp only [Nat.sub_zero, Nat.zero_add] at hrow
    rw [levTable_zero_right] at hrow
    rw [← hc, hrow]
    have hcons : (i + 1) :: (List.range' 1 s2.length).map (levTable s1 s2 (i + 1))
        = (List.range' 0 (s2.length + 1)).map (levTable s1 s2 (i + 1)) := by
      rw [List.range'_succ, List.map_cons, levTable_zero_right]
    rw [hcons, ih (i + 1) (by omega) hcs]

/-- The last entry of `f` mapped over `List.range' s (k+1)` is `f (s + k)`. -/
theorem getLastD_map_range' (f : Nat → Nat) :
    ∀ (k s : Nat) (d : Nat), ((List.range' s (k + 1)).map f).getLastD d = f (s + k) := by
  intro k
  induction k with
  | zero =>
    intro s d
    simp [List.range'_succ]
  | succ k ih =>
    intro s d
    rw [List.range'_succ, List.map_cons, List.getLastD_cons, ih (s + 1)]
    congr 1
    omega

/-- The row-by-row computation returns the table entry `d[len1][len2]` of the
classic dynamic-programming recurrence. -/
theorem levenshteinDistance_eq_levTable (s1 s2 : List Char) :
    levenshteinDistance s1 s2 = levTable s1 s2 s1.length s2.length := by
  unfold levenshteinDistance
  have h0 : List.range (s2.length + 1) = (List.range' 0 (s2.length + 1)).map (levTable s1 s2 0) := by
    rw [List.range_eq_range']
    have hid : ∀ j ∈ List.range' 0 (s2.length + 1), levTable s1 s2 0 j = j :=
      fun j _ => levTable_zero_left s1 s2 j
    exact ((List.map_congr_left hid).trans (List.map_id' _)).symm
  rw [h0, levLoop_spec s1 s2 s1 0 (by omega) rfl, getLastD_map_range', Nat.zero_add]

/-- Every table entry is bounded by the larger of its two indices (the diagonal
chain of substitutions witnesses this). -/
theorem levTable_le_max (s1 s2 : List Char) :
    ∀ (i j : Nat), levTable s1 s2 i j ≤ max i j := by
  intro i
  induction i with
  | zero => intro j; rw [levTable_zero_left]; omega
  | succ i ih =>
    intro j
    cases j with
    | zero => rw [levTable_zero_right]; omega
    | succ j =>
      rw [levTable_succ_succ]
      have hd := ih j
      have hcost : (if s1.getD i ' ' = s2.getD j ' ' then 0 else 1) ≤ 1 := by
        split <;> omega
      omega

/-- The table is symmetric under swapping the two strings together with the two
indices. -/
theorem levTable_symm (s1 s2 : List Char) :
    ∀ (i j : Nat), levTable s1 s2 i j = levTable s2 s1 j i := by
  intro i
  induction i with
  | zero => intro j; rw [levTable_zero_left, levTable_zero_right]
  | succ i ih =>
    intro j
    induction j with
    | zero => rw [levTable_zero_left, levTable_zero_right]
    | succ j ihj =>
      rw [levTable_succ_succ, levTable_succ_succ, ih (j + 1), ih j, ihj]
      have hcost : (if s1.getD i ' ' = s2.getD j ' ' then 0 else 1)
          = (if s2.getD j ' ' = s1.getD i ' ' then 0 else 1) := by
        have hiff : (s1.getD i ' ' = s2.getD j ' ') ↔ (s2.getD j ' ' = s1.getD i ' ') := eq_comm
        rw [if_congr hiff rfl rfl]
      rw [hcost]
      omega

/-- Edit distance is symmetric in its two arguments. -/
theorem levenshteinDistance_comm (s1 s2 : List Char) :
    levenshteinDistance s1 s2 = levenshteinDistance s2 s1 := by
  rw [levenshteinDistance_eq_levTable, levenshteinDistance_eq_levTable, levTable_symm]

/-- Edit distance never exceeds the length of the longer input. -/
theorem levenshteinDistance_le_max (s1 s2 : List Char) :
    levenshteinDistance s1 s2 ≤ max s1.length s2.length := by
  rw [levenshteinDistance_eq_levTable]
  exact levTable_le_max s1 s2 s1.length s2.length

/-- Reading back the code point of `Char.ofNat n` for a valid scalar value `n`. -/
theorem char_toNat_ofNat_valid {n : Nat} (h : n.isValidChar) : (Char.ofNat n).toNat = n := by
  unfold Char.ofNat
  rw [dif_pos h]
  rfl

/-- Lower-casing is idempotent: lowering an already lowered character changes
nothing. -/
theorem toLower_toLower (c : Char) : c.toLower.toLower = c.toLower := by
  unfold Char.toLower
  by_cases h : c.toNat ≥ 65 ∧ c.toNat ≤ 90
  · rw [if_pos h]
    have hv : (c.toNat + 32).isValidChar := Or.inl (by omega)
    have ht : (Char.ofNat (c.toNat + 32)).toNat = c.toNat + 32 := char_toNat_ofNat_valid hv
    rw [if_neg (by rw [ht]; omega)]
  · rw [if_neg h, if_neg h]

/-- The space character is fixed by lower-casing. -/
theorem toLower_space : Char.toLower ' ' = ' ' := by decide

/-- Every character of a collapsed string is a space or a character of the
original string. -/
theorem mem_collapseWSAux {c : Char} :
    ∀ (b : Bool) (l : List Char), c ∈ collapseWSAux b l → c = ' ' ∨ c ∈ l := by
  intro b l
  induction l generalizing b with
  | nil => intro h; exact absurd h (by simp [collapseWSAux])
  | cons a t ih =>
    intro h
    by_cases hws : isJsWhitespace a
    · rw [collapseWSAux, if_pos hws] at h
      cases b with
      | true =>
        rcases ih true h with h' | h'
        · exact Or.inl h'
        · exact Or.inr (List.mem_cons_of_mem a h')
      | false =>
        rcases List.mem_cons.mp h with h' | h'
        · exact Or.inl h'
        · rcases ih true h' with h'' | h''
          · exact Or.inl h''
          · exact Or.inr (List.mem_cons_of_mem a h'')
    · rw [collapseWSAux, if_neg hws] at h
      rcases List.mem_cons.mp h with h' | h'
      · exact Or.inr (h' ▸ List.mem_cons_self a t)
      · rcases ih false h' with h'' | h''
        · exact Or.inl h''
        · exact Or.inr (List.mem_cons_of_mem a h'')

/-- Trimming only removes characters. -/
theorem mem_trimWS {c : Char} {l : List Char} (h : c ∈ trimWS l) : c ∈ l := by
  unfold trimWS at h
  rw [List.mem_reverse] at h
  have h1 := (List.dropWhile_sublist isJsWhitespace).mem h
  rw [List.mem_reverse] at h1
  exact (List.dropWhile_sublist isJsWhitespace).mem h1

/-- Normalized text is already lower-case: mapping `Char.toLower` over it is the
identity. -/
theorem map_toLower_normalizeText (s : List Char) :
    (normalizeText s).map Char.toLower = normalizeText s := by
  have hfix : ∀ c ∈ normalizeText s, Char.toLower c = c := by
    intro c hc
    rcases mem_collapseWSAux false (trimWS (s.map Char.toLower)) hc with h | h
    · rw [h]; exact toLower_space
    · have h2 : c ∈ s.map Char.toLower := mem_trimWS h
      obtain ⟨a, _, rfl⟩ := List.mem_map.mp h2
      exact toLower_toLower a
  exact (List.map_congr_left hfix).trans (List.map_id' _)

/-- The head surviving `List.dropWhile isJsWhitespace` is not whitespace. -/
theorem head_dropWhile_not_ws {l : List Char} {c : Char}
    (h : (l.dropWhile isJsWhitespace).head? = some c) : isJsWhitespace c = false := by
  have := List.head?_dropWhile_not isJsWhitespace l
  rw [h] at this
  exact this

/-- A trimmed string does not start with whitespace. -/
theorem trimWS_head {l : List Char} {c : Char}
    (h : (trimWS l).head? = some c) : isJsWhitespace c = false := by
  unfold trimWS at h
  rw [List.head?_reverse] at h
  have hsplit := List.takeWhile_append_dropWhile isJsWhitespace (l.dropWhile isJsWhitespace).reverse
  have h2 : ((l.dropWhile isJsWhitespace).reverse).getLast? = some c := by
    rw [← hsplit, List.getLast?_append, h]
    rfl
  rw [List.getLast?_reverse] at h2
  exact head_dropWhile_not_ws h2

/-- A trimmed string does not end with whitespace. -/
theorem trimWS_last {l : List Char} {c : Char}
    (h : (trimWS l).getLast? = some c) : isJsWhitespace c = false := by
  unfold trimWS at h
  rw [List.getLast?_reverse] at h
  exact head_dropWhile_not_ws h

/-- Collapsing keeps a non-whitespace head in place. -/
theorem collapseWSAux_head {t : List Char} {a : Char} (hws : isJsWhitespace a = false) :
    (collapseWSAux false (a :: t)).head? = some a := by
  rw [collapseWSAux, if_neg (by rw [hws]; exact Bool.false_ne_true)]
  rfl

/-- Collapsing keeps a non-whitespace last character in place. -/
theorem collapseWSAux_last {c : Char} :
    ∀ (l : List Char) (b : Bool), l.getLast? = some c → isJsWhitespace c = false →
      (collapseWSAux b l).getLast? = some c := by
  intro l
  induction l with
  | nil => intro b h _; exact absurd h (by simp)
  | cons a t ih =>
    intro b hlast hc
    cases t with
    | nil =>
      simp only [List.getLast?_singleton] at hlast
      obtain rfl : a = c := Option.some.inj hlast
      rw [collapseWSAux, if_neg (by rw [hc]; exact Bool.false_ne_true)]
      simp [collapseWSAux]
    | cons a' t' =>
      rw [List.getLast?_cons_cons] at hlast
      have hrec : ∀ b', (collapseWSAux b' (a' :: t')).getLast? = some c :=
        fun b' => ih b' hlast hc
      have hne : ∀ b', collapseWSAux b' (a' :: t') ≠ [] := by
        intro b' hnil
        have hx := hrec b'
        rw [hnil] at hx
        simp at hx
      by_cases hws : isJsWhitespace a
      · rw [collapseWSAux, if_pos hws]
        cases b with
        | true => exact hrec true
        | false =>
          simp only [Bool.false_eq_true, if_false]
          cases hcc : collapseWSAux true (a' :: t') with
          | nil => exact absurd hcc (hne true)
          | cons x xs =>
            rw [List.getLast?_cons_cons, ← hcc]
            exact hrec true
      · rw [collapseWSAux, if_neg hws]
        cases hcc : collapseWSAux false (a' :: t') with
        | nil => exact absurd hcc (hne false)
        | cons x xs =>
          rw [List.getLast?_cons_cons, ← hcc]
          exact hrec false

/-- Trimming a string whose ends are not whitespace changes nothing. -/
theorem trimWS_eq_self {l : List Char}
    (hhead : ∀ c, l.head? = some c → isJsWhitespace c = false)
    (hlast : ∀ c, l.getLast? = some c → isJsWhitespace c = false) :
    trimWS l = l := by
  unfold trimWS
  have h1 : l.dropWhile isJsWhitespace = l := by
    cases l with
    | nil => rfl
    | cons a t =>
      rw [List.dropWhile_cons, if_neg]
      rw [hhead a rfl]
      exact Bool.false_ne_true
  rw [h1]
  have h2 : l.reverse.dropWhile isJsWhitespace = l.reverse := by
    cases hrev : l.reverse with
    | nil => rfl
    | cons a t =>
      rw [List.dropWhile_cons, if_neg]
      have : l.getLast? = some a := by
        rw [← List.head?_reverse, hrev]
        rfl
      rw [hlast a this]
      exact Bool.false_ne_true
  rw [h2, List.reverse_reverse]

/-- Collapsing whitespace runs is idempotent. -/
theorem collapseWSAux_idem :
    ∀ (l : List Char) (b : Bool), collapseWSAux b (collapseWSAux b l) = collapseWSAux b l := by
  intro l
  induction l with
  | nil => intro b; rfl
  | cons a t ih =>
    intro b
    by_cases hws : isJsWhitespace a
    · rw [collapseWSAux, if_pos hws]
      cases b with
      | true => exact ih true
      | false =>
        simp only [Bool.false_eq_true, if_false]
        rw [collapseWSAux, if_pos (by decide : isJsWhitespace ' ' = true)]
        simp only [Bool.false_eq_true, if_false]
        rw [ih true]
    · rw [collapseWSAux, if_neg hws]
      rw [collapseWSAux, if_neg hws]
      rw [ih false]

/-- Normalized text does not start with whitespace. -/
theorem normalizeText_nonWS_head {s : List Char} {c : Char}
    (h : (normalizeText s).head? = some c) : isJsWhitespace c = false := by
  unfold normalizeText collapseWS at h
  cases hy : trimWS ((s.map Char.toLower)) with
  | nil => rw [hy] at h; exact absurd h (by simp [collapseWSAux])
  | cons a t =>
    rw [hy] at h
    have ha : isJsWhitespace a = false := trimWS_head (by rw [hy]; rfl)
    rw [collapseWSAux_head ha] at h
    obtain rfl : a = c := Option.some.inj h
    exact ha

/-- Normalized text does not end with whitespace. -/
theorem normalizeText_nonWS_last {s : List Char} {c : Char}
    (h : (normalizeText s).getLast? = some c) : isJsWhitespace c = false := by
  unfold normalizeText collapseWS at h
  cases hy : trimWS ((s.map Char.toLower)) with
  | nil => rw [hy] at h; exact absurd h (by simp [collapseWSAux])
  | cons a t =>
    rw [hy] at h
    cases hz : (a :: t).getLast? with
    | none => exact absurd hz (by simp)
    | some c0 =>
      have hc0 : isJsWhitespace c0 = false := trimWS_last (by rw [hy]; exact hz)
      rw [collapseWSAux_last (a :: t) false hz hc0] at h
      obtain rfl : c0 = c := Option.some.inj h
      exact hc0

/-- Normalization is idempotent. -/
theorem normalizeText_idem (s : List Char) :
    normalizeText (normalizeText s) = normalizeText s := by
  conv_lhs => rw [normalizeText]
  rw [map_toLower_normalizeText]
  rw [trimWS_eq_self (fun c hc => normalizeText_nonWS_head hc)
    (fun c hc => normalizeText_nonWS_last hc)]
  show collapseWSAux false (normalizeText s) = normalizeText s
  rw [normalizeText, collapseWS]
  exact collapseWSAux_idem _ false

/-- Evaluation rule for `jsRound` via an explicit fraction for `q + 1/2`. -/
theorem jsRound_eq (q : ℚ) (n : ℤ) (d : ℕ) (h : q + 1 / 2 = (n : ℚ) / (d : ℚ)) :
    jsRound q = n / d := by
  unfold jsRound
  rw [h, Rat.floor_intCast_div_natCast]

/-- Rounding a non-negative number is non-negative. -/
theorem jsRound_nonneg {q : ℚ} (h : 0 ≤ q) : 0 ≤ jsRound q := by
  unfold jsRound
  exact Int.floor_nonneg.mpr (by linarith)

/-- Rounding a number that is at most `10000` yields at most `10000`. -/
theorem jsRound_le {q : ℚ} (h : q ≤ 10000) : jsRound q ≤ 10000 := by
  unfold jsRound
  have h1 : ⌊q + 1 / 2⌋ ≤ ⌊(10000 : ℚ) + 1 / 2⌋ := Int.floor_le_floor (by linarith)
  have h2 : ⌊(10000 : ℚ) + 1 / 2⌋ = 10000 := by
    rw [show ((10000 : ℚ) + 1 / 2) = ((20001 : ℤ) : ℚ) / ((2 : ℕ) : ℚ) by norm_num,
      Rat.floor_intCast_div_natCast]
    decide
  omega

/-- The similarity score is symmetric in its two arguments. -/
theorem calculateSimilarity_comm (a b : List Char) :
    calculateSimilarity a b = calculateSimilarity b a := by
  simp only [calculateSimilarity]
  by_cases h1 : a = [] ∨ b = []
  · rw [if_pos h1, if_pos (Or.symm h1)]
  · have h1' : ¬(b = [] ∨ a = []) := fun hc => h1 (Or.symm hc)
    rw [if_neg h1, if_neg h1']
    by_cases h2 : normalizeText a = normalizeText b
    · rw [if_pos h2, if_pos h2.symm]
    · have h2' : ¬(normalizeText b = normalizeText a) := fun hc => h2 hc.symm
      rw [if_neg h2, if_neg h2']
      rw [Nat.max_comm (normalizeText a).length (normalizeText b).length,
        levenshteinDistance_comm (normalizeText a) (normalizeText b)]

/-- A non-empty text compared against itself scores exactly `100`. -/
theorem calculateSimilarity_self {a : List Char} (h : a ≠ []) :
    calculateSimilarity a a = 100 := by
  simp [calculateSimilarity, h]

/-- The similarity score always lies in the closed interval `[0, 100]`. -/
theorem calculateSimilarity_bounds (a b : List Char) :
    0 ≤ calculateSimilarity a b ∧ calculateSimilarity a b ≤ 100 := by
  simp only [calculateSimilarity]
  split_ifs with h1 h2 h3
  · norm_num
  · norm_num
  · norm_num
  · set M := max (normalizeText a).length (normalizeText b).length with hM
    set D := levenshteinDistance (normalizeText a) (normalizeText b) with hD
    have hDM : D ≤ M := levenshteinDistance_le_max _ _
    have hM1 : 1 ≤ M := Nat.one_le_iff_ne_zero.mpr h3
    have hMQ : (0 : ℚ) < (M : ℚ) := by exact_mod_cast Nat.pos_of_ne_zero h3
    have hDMQ : (D : ℚ) ≤ (M : ℚ) := by exact_mod_cast hDM
    set x : ℚ := ((M : ℚ) - (D : ℚ)) / (M : ℚ) * 100 * 100 with hx
    have hx0 : 0 ≤ x := by
      apply mul_nonneg
      apply mul_nonneg
      · exact div_nonneg (by linarith) (le_of_lt hMQ)
      · norm_num
      · norm_num
    have hx1 : x ≤ 10000 := by
      have hr : ((M : ℚ) - (D : ℚ)) / (M : ℚ) ≤ 1 := by
        rw [div_le_one hMQ]
        linarith
      calc x = ((M : ℚ) - (D : ℚ)) / (M : ℚ) * 10000 := by rw [hx]; ring
      _ ≤ 1 * 10000 := by
        apply mul_le_mul_of_nonneg_right hr
        norm_num
      _ = 10000 := by norm_num
    have hj0 : 0 ≤ jsRound x := jsRound_nonneg hx0
    have hj1 : jsRound x ≤ 10000 := jsRound_le hx1
    have hj0' : (0 : ℚ) ≤ (jsRound x : ℚ) := by exact_mod_cast hj0
    have hj1' : (jsRound x : ℚ) ≤ 10000 := by exact_mod_cast hj1
    constructor
    · positivity
    · rw [div_le_iff₀ (by norm_num : (0 : ℚ) < 100)]
      linarith

/-- Whitespace characters are fixed by lower-casing. -/
theorem toLower_of_isJsWhitespace {c : Char} (h : isJsWhitespace c = true) :
    c.toLower = c := by
  have h' : ¬(c.toNat ≥ 65 ∧ c.toNat ≤ 90) := by
    simp [isJsWhitespace] at h
    omega
  unfold Char.toLower
  rw [if_neg h']

/-- A string consisting only of whitespace normalizes to the empty string. -/
theorem normalizeText_eq_nil_of_ws {a : List Char} (h : ∀ c ∈ a, isJsWhitespace c = true) :
    normalizeText a = [] := by
  have hmap : a.map Char.toLower = a :=
    (List.map_congr_left fun c hc => toLower_of_isJsWhitespace (h c hc)).trans (List.map_id' a)
  unfold normalizeText trimWS
  rw [hmap, List.dropWhile_eq_nil_iff.mpr h]
  rfl

/-- Two non-empty whitespace-only strings score `100`: both normalize to the
empty string and the identical-forms check fires before any length guard. -/
theorem calculateSimilarity_ws_ws {a b : List Char} (ha : a ≠ []) (hb : b ≠ [])
    (hwa : ∀ c ∈ a, isJsWhitespace c = true) (hwb : ∀ c ∈ b, isJsWhitespace c = true) :
    calculateSimilarity a b = 100 := by
  simp only [calculateSimilarity]
  rw [if_neg (by tauto), normalizeText_eq_nil_of_ws hwa, normalizeText_eq_nil_of_ws hwb]
  simp

/-- Evaluation rule for the general branch of `calculateSimilarity` on concrete
inputs, splitting the list computations from the rational arithmetic. -/
theorem calculateSimilarity_eval (t1 t2 : List Char) (d maxL : Nat) (r : ℚ)
    (h1 : t1 ≠ []) (h2 : t2 ≠ [])
    (hne : normalizeText t1 ≠ normalizeText t2)
    (hmax : max (normalizeText t1).length (normalizeText t2).length = maxL)
    (hL : maxL ≠ 0)
    (hd : levenshteinDistance (normalizeText t1) (normalizeText t2) = d)
    (hr : (jsRound (((maxL : ℚ) - (d : ℚ)) / (maxL : ℚ) * 100 * 100) : ℚ) / 100 = r) :
    calculateSimilarity t1 t2 = r := by
  simp only [calculateSimilarity]
  rw [if_neg (by tauto), if_neg hne, hmax, if_neg hL, hd, hr]

/-- C2 (counterexample): on two empty strings `calculateSimilarity` does NOT
return `100` — the falsy-input guard at `src/script.js` line 76 fires first. -/
theorem c2_counterexample :
    calculateSimilarity [] [] ≠ 100 := by decide

/-- C2 (amended): when both inputs are the empty string the result is exactly
`0`; the empty-input rule precedes the identical-normalized-forms rule. -/
theorem c2_amended :
    calculateSimilarity [] [] = 0 := by decide

/-- C3 (counterexample): self-similarity is not `100` for every string; the
empty string is a counterexample, scoring `0`. -/
theorem c3_counterexample :
    ¬ ∀ a : List Char, calculateSimilarity a a = 100 := by
  intro h
  exact absurd (h []) (by decide)

/-- C3 (amended): every non-empty text has self-similarity exactly `100`. -/
theorem c3_amended (a : List Char) (h : a ≠ []) :
    calculateSimilarity a a = 100 :=
  calculateSimilarity_self h

/-- C3 witness: the amended theorem applied to the concrete text `"x"`. -/
theorem c3_amended_witness :
    (['x'] : List Char) ≠ [] ∧ calculateSimilarity ['x'] ['x'] = 100 :=
  ⟨by decide, c3_amended ['x'] (by decide)⟩

set_option maxRecDepth 100000 in
/-- C4: `levenshteinDistance` equals the table `d[m][n]` of the classic
dynamic-programming recurrence with base cases `d[i][0] = i`, `d[0][j] = j`,
uniform substitution cost `1`; in particular the distance from `"kitten"` to
`"sitting"` is `3`.  The output is a `Nat`, hence always a non-negative
integer. -/
theorem c4_editDistance :
    (∀ s1 s2 : List Char, levenshteinDistance s1 s2 = levTable s1 s2 s1.length s2.length)
    ∧ (∀ (s1 s2 : List Char) (i : Nat), levTable s1 s2 i 0 = i)
    ∧ (∀ (s1 s2 : List Char) (j : Nat), levTable s1 s2 0 j = j)
    ∧ (∀ (s1 s2 : List Char) (i j : Nat), levTable s1 s2 (i + 1) (j + 1) =
        min (min (levTable s1 s2 i (j + 1) + 1) (levTable s1 s2 (i + 1) j + 1))
          (levTable s1 s2 i j + if s1.getD i ' ' = s2.getD j ' ' then 0 else 1))
    ∧ levenshteinDistance "kitten".data "sitting".data = 3 :=
  ⟨levenshteinDistance_eq_levTable, levTable_zero_right, levTable_zero_left,
    levTable_succ_succ, by decide⟩

/-- C5: the similarity score always lies in `[0, 100]`, and the edit distance
never exceeds the larger of the two lengths. -/
theorem c5_bounds :
    (∀ a b : List Char, 0 ≤ calculateSimilarity a b ∧ calculateSimilarity a b ≤ 100)
    ∧ ∀ s1 s2 : List Char, levenshteinDistance s1 s2 ≤ max s1.length s2.length :=
  ⟨calculateSimilarity_bounds, levenshteinDistance_le_max⟩

/-- C6: both the similarity score and the edit distance are symmetric in their
two arguments. -/
theorem c6_symmetric :
    (∀ a b : List Char, calculateSimilarity a b = calculateSimilarity b a)
    ∧ ∀ a b : List Char, levenshteinDistance a b = levenshteinDistance b a :=
  ⟨calculateSimilarity_comm, levenshteinDistance_comm⟩

/-- C7: normalization is idempotent.  (It is a total function over all strings
by construction: `normalizeText` is a Lean function defined on every
`List Char`.) -/
theorem c7_normalize_idem :
    ∀ s : List Char, normalizeText (normalizeText s) = normalizeText s :=
  normalizeText_idem

/-- C8: with an absent target, or a target whose text is empty, the finder
returns the empty sequence for every candidate collection and threshold. -/
theorem c8_guard (questions : List Question) (threshold : ℚ) :
    findSimilarQuestionsForQuestion none questions threshold = []
    ∧ ∀ target : Question, target.question_text = [] →
        findSimilarQuestionsForQuestion (some target) questions threshold = [] := by
  refine ⟨rfl, fun target ht => ?_⟩
  simp only [findSimilarQuestionsForQuestion]
  rw [if_pos ht]

/-- C8 witness: the guard theorem applied to a concrete collection, with the
empty-text case discharged at a concrete target. -/
theorem c8_guard_witness :
    (findSimilarQuestionsForQuestion none [⟨"1", ['a']⟩] 70 = []
      ∧ ∀ target : Question, target.question_text = [] →
          findSimilarQuestionsForQuestion (some target) [⟨"1", ['a']⟩] 70 = [])
    ∧ (⟨"2", []⟩ : Question).question_text = []
    ∧ findSimilarQuestionsForQuestion (some ⟨"2", []⟩) [⟨"1", ['a']⟩] 70 = [] :=
  ⟨c8_guard [⟨"1", ['a']⟩] 70, rfl, (c8_guard [⟨"1", ['a']⟩] 70).2 ⟨"2", []⟩ rfl⟩

/-- C1: for every target with non-empty text, every candidate collection and
every threshold, the result is a permutation of the candidates whose id differs
from the target id and whose score meets the threshold, each paired with its
computed score; it is sorted by descending score; and every returned entry has
an id different from the target id, carries its computed score which meets the
threshold, and comes from the collection. -/
theorem c1_exact (target : Question) (questions : List Question) (threshold : ℚ)
    (h : target.question_text ≠ []) :
    (findSimilarQuestionsForQuestion (some target) questions threshold).Perm
        ((questions.filter fun q =>
            decide (q.id ≠ target.id) &&
            decide (threshold ≤ calculateSimilarity target.question_text q.question_text)).map
          fun q => (q, calculateSimilarity target.question_text q.question_text))
      ∧ (findSimilarQuestionsForQuestion (some target) questions threshold).Sorted simRel
      ∧ ∀ p ∈ findSimilarQuestionsForQuestion (some target) questions threshold,
          p.1.id ≠ target.id
          ∧ p.2 = calculateSimilarity target.question_text p.1.question_text
          ∧ threshold ≤ p.2 ∧ p.1 ∈ questions := by
  have hunfold : findSimilarQuestionsForQuestion (some target) questions threshold
      = List.insertionSort simRel
          ((questions.filter fun q =>
              decide (q.id ≠ target.id) &&
              decide (threshold ≤ calculateSimilarity target.question_text q.question_text)).map
            fun q => (q, calculateSimilarity target.question_text q.question_text)) := by
    simp only [findSimilarQuestionsForQuestion]
    rw [if_neg h]
  rw [hunfold]
  refine ⟨List.perm_insertionSort simRel _, List.sorted_insertionSort simRel _, ?_⟩
  intro p hp
  have hp2 : p ∈ (questions.filter fun q =>
      decide (q.id ≠ target.id) &&
      decide (threshold ≤ calculateSimilarity target.question_text q.question_text)).map
        (fun q => (q, calculateSimilarity target.question_text q.question_text)) :=
    ((List.perm_insertionSort simRel _).mem_iff).mp hp
  obtain ⟨q, hq, rfl⟩ := List.mem_map.mp hp2
  have hq2 := List.of_mem_filter hq
  have hq3 := List.mem_of_mem_filter hq
  simp only [Bool.and_eq_true, decide_eq_true_eq] at hq2
  exact ⟨hq2.1, rfl, hq2.2, hq3⟩

/-- C1 witness: the specification theorem applied to a concrete target,
collection and threshold. -/
theorem c1_exact_witness :
    (⟨"t", ['a']⟩ : Question).question_text ≠ [] ∧
    ((findSimilarQuestionsForQuestion (some ⟨"t", ['a']⟩) [⟨"c", ['a']⟩] 0).Perm
        (([⟨"c", ['a']⟩].filter fun q =>
            decide (q.id ≠ (⟨"t", ['a']⟩ : Question).id) &&
            decide ((0 : ℚ) ≤ calculateSimilarity (⟨"t", ['a']⟩ : Question).question_text q.question_text)).map
          fun q => (q, calculateSimilarity (⟨"t", ['a']⟩ : Question).question_text q.question_text))
      ∧ (findSimilarQuestionsForQuestion (some ⟨"t", ['a']⟩) [⟨"c", ['a']⟩] 0).Sorted simRel
      ∧ ∀ p ∈ findSimilarQuestionsForQuestion (some ⟨"t", ['a']⟩) [⟨"c", ['a']⟩] 0,
          p.1.id ≠ (⟨"t", ['a']⟩ : Question).id
          ∧ p.2 = calculateSimilarity (⟨"t", ['a']⟩ : Question).question_text p.1.question_text
          ∧ (0 : ℚ) ≤ p.2 ∧ p.1 ∈ [⟨"c", ['a']⟩]) :=
  ⟨by decide, c1_exact ⟨"t", ['a']⟩ [⟨"c", ['a']⟩] 0 (by decide)⟩

/-- C10: two non-empty inputs consisting entirely of whitespace score exactly
`100`, because both normalize to the empty string and the identical-forms rule
is checked before any length guard. -/
theorem c10_whitespace (a b : List Char) (ha : a ≠ []) (hb : b ≠ [])
    (hwa : ∀ c ∈ a, isJsWhitespace c = true) (hwb : ∀ c ∈ b, isJsWhitespace c = true) :
    calculateSimilarity a b = 100 :=
  calculateSimilarity_ws_ws ha hb hwa hwb

/-- C10 witness: the whitespace theorem applied to a space and two tabs. -/
theorem c10_whitespace_witness :
    ([' '] ≠ ([] : List Char)) ∧ (['\t', '\t'] ≠ ([] : List Char))
    ∧ (∀ c ∈ ([' '] : List Char), isJsWhitespace c = true)
    ∧ (∀ c ∈ (['\t', '\t'] : List Char), isJsWhitespace c = true)
    ∧ calculateSimilarity [' '] ['\t', '\t'] = 100 :=
  ⟨by decide, by decide, by decide, by decide,
    c10_whitespace [' '] ['\t', '\t'] (by decide) (by decide) (by decide) (by decide)⟩

set_option maxRecDepth 1000000 in
/-- C9: on the literal three-question collection with target id `"1"` and
threshold `70`, the finder returns exactly the record with id `"2"` paired
with the score `96.67`; id `"1"` is excluded by self-match and id `"3"` by low
similarity. -/
theorem c9_literal :
    findSimilarQuestionsForQuestion
        (some ⟨"1", "What is the capital of France?".data⟩)
        [⟨"1", "What is the capital of France?".data⟩,
         ⟨"2", "What is the capital of france".data⟩,
         ⟨"3", "How tall is Mount Everest?".data⟩] 70
      = [(⟨"2", "What is the capital of france".data⟩, 9667 / 100)] := by
  have hs2 : calculateSimilarity "What is the capital of France?".data
      "What is the capital of france".data = 9667 / 100 := by
    apply calculateSimilarity_eval _ _ 1 30
    · decide
    · decide
    · decide
    · decide
    · decide
    · decide
    · rw [jsRound_eq _ 58003 6 (by push_cast; norm_num)]
      norm_num
  have hs3 : calculateSimilarity "What is the capital of France?".data
      "How tall is Mount Everest?".data = 20 := by
    apply calculateSimilarity_eval _ _ 24 30
    · decide
    · decide
    · decide
    · decide
    · decide
    · decide
    · rw [jsRound_eq _ 4001 2 (by push_cast; norm_num)]
      norm_num
  have hb2 : decide ((70 : ℚ) ≤ 9667 / 100) = true := decide_eq_true (by norm_num)
  have hb3 : decide ((70 : ℚ) ≤ 20) = false := decide_eq_false (by norm_num)
  have hid1 : decide (("1" : String) ≠ "1") = false := by decide
  have hid2 : decide (("2" : String) ≠ "1") = true := by decide
  have hid3 : decide (("3" : String) ≠ "1") = true := by decide
  simp only [findSimilarQuestionsForQuestion]
  rw [if_neg (by decide)]
  simp only [List.filter_cons, List.filter_nil, List.map_cons, List.map_nil,
    hs2, hs3, hb2, hb3, hid1, hid2, hid3, Bool.false_and, Bool.true_and,
    Bool.and_self, if_true, if_false, List.insertionSort, List.orderedInsert]
